import Mathlib

/-!
Verification of the claude-demon session-sync daemon against its
natural-language specification.

The development shallowly embeds the TypeScript sources:
strings are `List Char`, JavaScript numbers are `ℚ`, fallible
operations return `Option`/`Except`, and the effectful daemon
handlers are embedded as pure functions that return the trace of
external calls they would issue (or a reified outcome describing
the next effect).  Every definition is translated from the
repository sources; definitions whose name carries a `Claim`
suffix instead transcribe the specification text, for comparison.
-/

set_option maxHeartbeats 1000000

namespace ClaudeDemon

/-! ## Basic string helpers (JavaScript string primitives)

JavaScript strings are embedded as `List Char`.  The helpers below
model `String.prototype.includes`, `toLowerCase`, `trim`,
`split(/\s+/)` and `split(sep)`.
-/

/-- The characters recognised by the embedding as whitespace
(JavaScript `\s` on the ASCII inputs the daemon handles). -/
def wsChar (c : Char) : Bool :=
  c = ' ' || c = '\t' || c = '\n' || c = '\r'

/-- `s.toLowerCase()` (ASCII, which is all the sources compare). -/
def lowerStr (s : List Char) : List Char :=
  s.map Char.toLower

/-- Does `l` start with `p`?  (JavaScript `startsWith`.) -/
def startsWithL : List Char → List Char → Bool
  | [], _ => true
  | _ :: _, [] => false
  | a :: as, b :: bs => a = b && startsWithL as bs

/-- `hay.includes(needle)`: contiguous-substring test (the needle
starts at some position of the haystack). -/
def containsL : List Char → List Char → Bool
  | [], needle => startsWithL needle []
  | hay@(_ :: t), needle => startsWithL needle hay || containsL t needle

/-- `s.trim()`. -/
def trimL (s : List Char) : List Char :=
  ((s.dropWhile wsChar).reverse.dropWhile wsChar).reverse

/-- `Math.min(a, b)` (on the rationals modelling JS numbers). -/
def jsMin (a b : ℚ) : ℚ := if a ≤ b then a else b

theorem jsMin_eq_min (a b : ℚ) : jsMin a b = min a b := by
  rw [jsMin, min_def]

/-- Fuel-indexed worker for `split(/\s+/)`. -/
def splitWsAux : Nat → List Char → List (List Char)
  | 0, l => [l]
  | fuel + 1, l =>
    let tok := l.takeWhile (fun c => !wsChar c)
    let rest := l.drop tok.length
    if rest.isEmpty then [tok]
    else tok :: splitWsAux fuel (rest.dropWhile wsChar)

/-- JavaScript `s.split(/\s+/)`: splits on maximal whitespace runs,
keeping an empty token at either end when the string starts or ends
with whitespace (as the JS engine does). -/
def splitWsJS (l : List Char) : List (List Char) :=
  splitWsAux (l.length + 1) l

/-- JavaScript `s.split(sep)` for a one-character separator
(no run collapsing, empty fields kept). -/
def splitOnChar (sep : Char) (l : List Char) : List (List Char) :=
  l.splitOn sep

/-! ## Durable queue: data model and writer (`src/queue/types.ts`,
`src/queue/writer.ts`) -/

/-- `status` field of a queue record. -/
inductive QStatus where
  | pending
  | processing
  | processed
  | failed
deriving DecidableEq, Repr

/-- A queue record (`QueueItem`).  The two payload variants are
flattened into optional fields, exactly the shape the JSON lines
carry. -/
structure QItem where
  id : List Char
  type : List Char
  timestamp : List Char
  status : QStatus
  error : Option (List Char)
  retryCount : Option Nat
  sessionId : List Char
  transcriptPath : Option (List Char)
  prUrl : Option (List Char)
  cwd : List Char
deriving DecidableEq, Repr

/-- Replace the first record whose `id` matches, leaving every other
record alone (the `findIndex` / `items[index] = …` step of
`updateItemStatus`).  `none` when no record matches. -/
def updateFirst (items : List QItem) (id : List Char) (f : QItem → QItem) :
    Option (List QItem) :=
  match items with
  | [] => none
  | it :: rest =>
    if it.id = id then some (f it :: rest)
    else (updateFirst rest id f).map (fun r => it :: r)

/-- `updateItemStatus(id, status, error?)` from `src/queue/writer.ts`:
rewrite the file with the target record updated; `failed` increments
`retryCount` (`(retryCount ?? 0) + 1`), every other status keeps it.
Throwing is modelled by `Except.error` carrying the message. -/
def updateItemStatus (items : List QItem) (id : List Char) (status : QStatus)
    (error : Option (List Char)) : Except (List Char) (List QItem) :=
  match updateFirst items id (fun old =>
      { old with
        status := status
        error := error
        retryCount :=
          if status = QStatus.failed then some (old.retryCount.getD 0 + 1)
          else old.retryCount }) with
  | none => Except.error (("Queue item not found: ").data ++ id)
  | some items2 => Except.ok items2

/-- `markAsProcessing(id)`. -/
def markAsProcessing (items : List QItem) (id : List Char) :
    Except (List Char) (List QItem) :=
  updateItemStatus items id QStatus.processing none

/-- `markAsProcessed(id)`. -/
def markAsProcessed (items : List QItem) (id : List Char) :
    Except (List Char) (List QItem) :=
  updateItemStatus items id QStatus.processed none

/-- `markAsFailed(id, error)`. -/
def markAsFailed (items : List QItem) (id : List Char) (error : List Char) :
    Except (List Char) (List QItem) :=
  updateItemStatus items id QStatus.failed (some error)

/-- `resetToPending(id)`. -/
def resetToPending (items : List QItem) (id : List Char) :
    Except (List Char) (List QItem) :=
  updateItemStatus items id QStatus.pending none

/-! ## Queue processor per-record handling
(`src/daemon/processor.ts`, `processItem`)

The two kind handlers perform tracker I/O; they are abstracted as
`Except`-valued functions (success, or a thrown error message).  The
embedding mirrors the `try { … } catch { markAsFailed }` structure:
an `Except.error` result models an exception escaping `processItem`
itself (which only happens when `markAsFailed` throws in the catch
block). -/

def processItem
    (handleSessionStop handlePrCreated : QItem → Except (List Char) Unit)
    (items : List QItem) (item : QItem) :
    Except (List Char) (List QItem) :=
  match markAsProcessing items item.id with
  | Except.error e =>
    -- markAsProcessing threw; the catch block runs markAsFailed
    markAsFailed items item.id e
  | Except.ok items1 =>
    let result : Except (List Char) Unit :=
      if item.type = ("session_stop").data then handleSessionStop item
      else if item.type = ("pr_created").data then handlePrCreated item
      else Except.ok ()
    match result with
    | Except.ok _ =>
      match markAsProcessed items1 item.id with
      | Except.ok items2 => Except.ok items2
      | Except.error e => markAsFailed items1 item.id e
    | Except.error msg => markAsFailed items1 item.id msg

/-! ## Matcher data model (`src/matching/types.ts`,
`src/linear/client.ts`) -/

/-- Mirror of the tracker issue as the matcher consumes it
(`LinearIssue`): identifier, title, optional description and the
workflow-state name used for scoring. -/
structure LinearIssue where
  identifier : List Char
  title : List Char
  description : Option (List Char)
  stateName : List Char
deriving DecidableEq, Repr

/-- `ExtractedSessionContent` from `src/matching/types.ts`. -/
structure ExtractedSessionContent where
  primaryRequest : List Char
  additionalContext : List (List Char)
  keywords : List (List Char)
  cwd : List Char
  projectName : List Char
  toolPatterns : List (List Char)
  filePaths : List (List Char)
  sessionId : List Char
deriving DecidableEq, Repr

/-! ## Branch-pattern extraction (`src/matching/index.ts`)

`findMatchingIssue` matches the branch against the regular
expression `([A-Z]+-\d+)` (the configured default pattern, written
literally at that call site) and returns capture group 1 of the
first match.  The regex is embedded directly: because `[A-Z]+` can
only stop where the next character is no longer an upper-case
letter, backtracking never helps, so a match starting at a position
is exactly "maximal upper-case run, then `-`, then a maximal
non-empty digit run", and the first match is the leftmost such
position. -/

def isUpperAZ (c : Char) : Bool := 'A' ≤ c && c ≤ 'Z'

def isDigit09 (c : Char) : Bool := '0' ≤ c && c ≤ '9'

/-- Attempt to match `([A-Z]+-\d+)` at the start of `l`. -/
def matchBranchAt (l : List Char) : Option (List Char) :=
  let ups := l.takeWhile isUpperAZ
  if ups.isEmpty then none
  else
    match l.drop ups.length with
    | '-' :: rest2 =>
      let ds := rest2.takeWhile isDigit09
      if ds.isEmpty then none else some (ups ++ '-' :: ds)
    | _ => none

/-- First match of `([A-Z]+-\d+)` in `l` (JavaScript
`l.match(/([A-Z]+-\d+)/)` followed by `match[1]`; group 1 spans the
whole pattern, so the capture is the matched substring). -/
def firstBranchMatch : List Char → Option (List Char)
  | [] => none
  | l@(_ :: t) =>
    match matchBranchAt l with
    | some m => some m
    | none => firstBranchMatch t

/-- The argument `findMatchingIssue` receives from the processor:
the extracted transcript content, or `null`. -/
structure SessionContentJS where
  userMessages : List (List Char)
  assistantMessages : List (List Char)
  gitBranch : Option (List Char)
deriving DecidableEq, Repr

/-- Stop words of `extractKeywordsSimple` in `src/matching/index.ts`. -/
def simpleStopWords : List (List Char) :=
  [("the").data, ("a").data, ("an").data, ("is").data, ("are").data,
   ("to").data, ("of").data, ("in").data, ("for").data, ("on").data,
   ("with").data]

/-- `extractKeywordsSimple(text)`: lowercase, split on whitespace,
keep tokens longer than 2 that are not stop words, first 20. -/
def extractKeywordsSimple (text : List Char) : List (List Char) :=
  (((splitWsJS (lowerStr text)).filter
      (fun w => w.length > 2 && !simpleStopWords.contains w)).take 20)

/-- Reified result of `findMatchingIssue` in `src/matching/index.ts`.
The function either returns immediately (branch hit, or no usable
content — both without constructing the matcher, so without any
tracker or LLM call), or proceeds to call
`HybridMatcher.findMatch` on the content it assembled. -/
inductive MatchOutcome where
  | branch (identifier : List Char)
  | noContent
  | matcher (content : ExtractedSessionContent)
deriving DecidableEq, Repr

/-- Does the reified outcome go on to issue tracker / LLM calls?
Only the `matcher` continuation does. -/
def MatchOutcome.issuesCalls : MatchOutcome → Bool
  | MatchOutcome.matcher _ => true
  | _ => false

/-- The identifier `findMatchingIssue` returns when it returns
without invoking the hybrid matcher. -/
def MatchOutcome.directResult : MatchOutcome → Option (List Char)
  | MatchOutcome.branch m => some m
  | _ => none

/-- `findMatchingIssue(content, cwd)` from `src/matching/index.ts`,
up to the point where control would enter `HybridMatcher.findMatch`
(reified as `MatchOutcome.matcher`). -/
def findMatchingIssue (content : Option SessionContentJS) (cwd : List Char) :
    MatchOutcome :=
  -- branch extraction first
  match content.bind (fun c => c.gitBranch.bind firstBranchMatch) with
  | some m => MatchOutcome.branch m
  | none =>
    match content with
    | none => MatchOutcome.noContent
    | some c =>
      if c.userMessages.isEmpty then MatchOutcome.noContent
      else
        -- cwd.split("/").pop() || ""
        let projectName := (splitOnChar '/' cwd).getLastD []
        let keywords := extractKeywordsSimple
          (List.intercalate ([' ']) c.userMessages)
        MatchOutcome.matcher
          { primaryRequest := c.userMessages.headD []
            additionalContext := c.userMessages.drop 1
            keywords := keywords
            cwd := cwd
            projectName := projectName
            toolPatterns := []
            filePaths := []
            sessionId := [] }

/-! ## Keyword scoring (`src/matching/keyword-search.ts`,
`KeywordSearcher.calculateKeywordScore`) -/

/-- Result record of the keyword searcher (`KeywordSearchResult`). -/
structure KeywordSearchResult where
  issue : LinearIssue
  matchedKeywords : List (List Char)
  keywordScore : ℚ
deriving DecidableEq, Repr

/-- One iteration of the keyword loop of `calculateKeywordScore`:
accumulates `(matchedKeywords, score)`. -/
def keywordStep (issueText titleLower : List Char)
    (acc : List (List Char) × ℚ) (keyword : List Char) :
    List (List Char) × ℚ :=
  let keywordLower := lowerStr keyword
  if containsL issueText keywordLower then
    (acc.1 ++ [keyword],
     acc.2 + (if containsL titleLower keywordLower then (0.15 : ℚ) else 0.05))
  else acc

/-- `calculateKeywordScore(issue, content)`. -/
def calculateKeywordScore (issue : LinearIssue)
    (content : ExtractedSessionContent) : KeywordSearchResult :=
  -- issueText = `${issue.title} ${issue.description || ""}`.toLowerCase()
  let issueText := lowerStr (issue.title ++ ' ' :: issue.description.getD [])
  let issueWords := splitWsJS issueText
  let kw := content.keywords.foldl
    (keywordStep issueText (lowerStr issue.title)) ([], 0)
  -- project name bonus (content.projectName must be truthy)
  let afterProj :=
    if !content.projectName.isEmpty &&
        containsL issueText (lowerStr content.projectName) then
      ((if kw.1.contains content.projectName then kw.1
        else kw.1 ++ [content.projectName]),
       kw.2 + 0.2)
    else kw
  -- primary request similarity
  let requestWords :=
    (splitWsJS (lowerStr content.primaryRequest)).filter
      (fun w => w.length > 2)
  let requestMatches := requestWords.filter (fun w => issueWords.contains w)
  let score :=
    if requestWords.length > 0 then
      afterProj.2 + ((requestMatches.length : ℚ) / requestWords.length) * 0.3
    else afterProj.2
  { issue := issue
    matchedKeywords := afterProj.1
    keywordScore := jsMin 1 score }

/-- The keyword-score formula exactly as the specification words it
(claim C4): 0.15 per keyword in the title, 0.05 per keyword only in
the description, 0.20 for the project name in title + description,
plus `0.30 × overlap / primary_tokens`, capped at 1.0.  (In `ℚ`,
division by zero is zero, which matches the code skipping the
overlap term when there are no primary tokens.) -/
def keywordScoreClaim (issue : LinearIssue)
    (content : ExtractedSessionContent) : ℚ :=
  let titleLower := lowerStr issue.title
  let descLower := lowerStr (issue.description.getD [])
  let issueText := lowerStr (issue.title ++ ' ' :: issue.description.getD [])
  let perKeyword :=
    (content.keywords.map (fun kw =>
      let k := lowerStr kw
      if containsL titleLower k then (0.15 : ℚ)
      else if containsL descLower k then 0.05
      else 0)).sum
  let projectBonus :=
    if containsL issueText (lowerStr content.projectName) then (0.2 : ℚ)
    else 0
  let requestWords :=
    (splitWsJS (lowerStr content.primaryRequest)).filter
      (fun w => w.length > 2)
  let overlap :=
    (requestWords.filter
      (fun w => (splitWsJS issueText).contains w)).length
  jsMin 1 (perKeyword + projectBonus +
    ((overlap : ℚ) / requestWords.length) * 0.3)

/-! ## Confidence combination (`src/matching/confidence-scorer.ts`
and `HybridMatcher.processResults` in
`src/matching/hybrid-matcher.ts`) -/

/-- `calculateStateBonus(stateName)`. -/
def calculateStateBonus (stateName : List Char) : ℚ :=
  let state := lowerStr stateName
  if containsL state ("progress").data || containsL state ("started").data
  then 1.0
  else if containsL state ("todo").data || containsL state ("backlog").data
      || containsL state ("unstarted").data then 0.5
  else if containsL state ("done").data || containsL state ("complete").data
      || containsL state ("cancel").data then 0.0
  else 0.3

/-- `combineScores(keywordScore, semanticScore, keywordWeight,
semanticWeight)`. -/
def combineScores (keywordScore : ℚ) (semanticScore : Option ℚ)
    (keywordWeight semanticWeight : ℚ) : ℚ :=
  match semanticScore with
  | none => keywordScore
  | some s =>
    let totalWeight := keywordWeight + semanticWeight
    keywordScore * (keywordWeight / totalWeight) +
      s * (semanticWeight / totalWeight)

/-- `HybridMatcherConfig`. -/
structure HybridMatcherConfig where
  keywordWeight : ℚ
  semanticWeight : ℚ
  confidenceThreshold : ℚ
  maxCandidates : Nat
  enableSemantic : Bool
deriving DecidableEq, Repr

/-- `DEFAULT_CONFIG` of the hybrid matcher. -/
def defaultMatcherConfig : HybridMatcherConfig :=
  { keywordWeight := 0.6
    semanticWeight := 0.4
    confidenceThreshold := 0.7
    maxCandidates := 10
    enableSemantic := true }

inductive MatchType where
  | exact
  | keyword
  | semantic
  | hybrid
deriving DecidableEq, Repr

/-- `MatchResult.details`. -/
structure MatchDetails where
  keywordScore : ℚ
  semanticScore : Option ℚ
  matchedKeywords : List (List Char)
  reasoning : Option (List Char)
deriving DecidableEq, Repr

/-- `MatchResult`. -/
structure MatchResult where
  issue : LinearIssue
  confidence : ℚ
  matchType : MatchType
  details : MatchDetails
deriving DecidableEq, Repr

/-- The body of the candidate loop in
`HybridMatcher.processResults`: score one keyword result against the
semantic map (`semanticGet` models `semanticResults.get`). -/
def scoreCandidate (config : HybridMatcherConfig)
    (semanticGet : List Char → Option (ℚ × List Char))
    (keywordResult : KeywordSearchResult) : MatchResult :=
  let issue := keywordResult.issue
  let keywordScore := keywordResult.keywordScore
  let semantic := semanticGet issue.identifier
  let stateBonus := calculateStateBonus issue.stateName
  -- combineScores(keywordScore + stateBonus * 0.1, semantic?.score, …)
  let confidence := combineScores (keywordScore + stateBonus * 0.1)
    (semantic.map (fun p => p.1)) config.keywordWeight config.semanticWeight
  let matchType :=
    match semantic with
    | some _ => if keywordScore > 0.3 then MatchType.hybrid else MatchType.semantic
    | none => MatchType.keyword
  { issue := issue
    confidence := confidence
    matchType := matchType
    details :=
      { keywordScore := keywordScore
        semanticScore := semantic.map (fun p => p.1)
        matchedKeywords := keywordResult.matchedKeywords
        reasoning := semantic.map (fun p => p.2) } }

/-- `HybridMatcher.processResults`: score every candidate and sort by
confidence, descending. -/
def processResults (config : HybridMatcherConfig)
    (keywordResults : List KeywordSearchResult)
    (semanticGet : List Char → Option (ℚ × List Char)) : List MatchResult :=
  (keywordResults.map (scoreCandidate config semanticGet)).mergeSort
    (fun a b => b.confidence ≤ a.confidence)

/-! ## Session log entries and the watcher-side matcher gate
(`src/daemon/parser.ts`, `src/daemon/watcher.ts`) -/

/-- A content block of an assistant message (`ContentBlock`). -/
structure CBlock where
  type : List Char
  text : Option (List Char)
  name : Option (List Char)
deriving DecidableEq, Repr

/-- The `message.content` field: a string for user entries, a block
list for assistant entries. -/
inductive MsgContent where
  | str (s : List Char)
  | blocks (bs : List CBlock)
deriving DecidableEq, Repr

structure SessionMessage where
  role : List Char
  content : MsgContent
deriving DecidableEq, Repr

/-- `SessionLogEntry` from `src/daemon/parser.ts`. -/
structure SessionLogEntry where
  type : List Char
  sessionId : List Char
  cwd : Option (List Char)
  gitBranch : Option (List Char)
  timestamp : List Char
  message : Option SessionMessage
deriving DecidableEq, Repr

/-- `extractPrimaryRequest(userEntries)` from
`src/matching/content-extractor.ts`: the first user entry's string
message content, trimmed; empty otherwise. -/
def extractPrimaryRequest (userEntries : List SessionLogEntry) : List Char :=
  match userEntries with
  | [] => []
  | firstEntry :: _ =>
    match firstEntry.message with
    | some m =>
      match m.content with
      | MsgContent.str s => trimL s
      | MsgContent.blocks _ => []
    | none => []

/-- Reified result of `SessionWatcher.findMatchingIssue(sessionId)`
(`src/daemon/watcher.ts`).  The method either answers from its
cache, returns `null` before any search (too few entries, or a too
short primary request), or proceeds to `hybridMatcher.findMatch`
— the only continuation that performs keyword or semantic search. -/
inductive WatcherOutcome where
  | cached (result : Option (List Char))
  | tooFewEntries
  | tooShort
  | callMatch (primaryRequest : List Char)
deriving DecidableEq, Repr

/-- Identifier returned when the watcher answers without invoking
the hybrid matcher. -/
def WatcherOutcome.directResult : WatcherOutcome → Option (List Char)
  | WatcherOutcome.cached r => r
  | _ => none

/-- Does the reified outcome invoke `hybridMatcher.findMatch`
(and hence keyword / semantic search)? -/
def WatcherOutcome.invokesSearch : WatcherOutcome → Bool
  | WatcherOutcome.callMatch _ => true
  | _ => false

/-- `SessionWatcher.findMatchingIssue`, reified up to the
`hybridMatcher.findMatch` call.  `cache` is
`this.matchCache.get(sessionId)` (present iff the session was
already resolved); `entries` is `this.sessionEntries.get(sessionId)`. -/
def watcherFindMatchingIssue (cache : Option (Option (List Char)))
    (entries : List SessionLogEntry) : WatcherOutcome :=
  match cache with
  | some r => WatcherOutcome.cached r
  | none =>
    -- wait for at least 2 entries to have enough context
    if entries.length < 2 then WatcherOutcome.tooFewEntries
    else
      -- extractSessionContent(entries).primaryRequest
      let primary := extractPrimaryRequest
        (entries.filter (fun e => e.type = ("user").data))
      -- skip if primary request is too short
      if primary.length < 20 then WatcherOutcome.tooShort
      else WatcherOutcome.callMatch primary

/-! ## PR-created handler (`src/daemon/processor.ts`,
`processPrCreated`) -/

/-- A cached workflow state (`LinearWorkflowState`). -/
structure WState where
  id : List Char
  name : List Char
deriving DecidableEq, Repr

/-- `QueueProcessor.getStateId(name)`: first cached state whose
lower-cased name contains the lower-cased query. -/
def getStateId (cachedStates : List WState) (name : List Char) :
    Option (List Char) :=
  (cachedStates.find?
    (fun s => containsL (lowerStr s.name) (lowerStr name))).map
    (fun s => s.id)

/-- The tracker mutations `processPrCreated` can issue, in order. -/
inductive LAction where
  | createIssue (title description teamId : List Char)
      (assigneeId : Option (List Char))
  | attachLink (issueId url title : List Char)
  | updateStatus (issueId stateId : List Char)
deriving DecidableEq, Repr

/-- The review state the specification asks for: a state whose name
contains `in review` case-insensitively, else one containing
`review` (claim C9's wording). -/
def reviewStateClaim (cachedStates : List WState) : Option (List Char) :=
  match (cachedStates.find?
      (fun s => containsL (lowerStr s.name) (lowerStr ("In Review").data))).map
      (fun s => s.id) with
  | some sid => some sid
  | none =>
    (cachedStates.find?
      (fun s => containsL (lowerStr s.name) ("review").data)).map
      (fun s => s.id)

/-- The payload of a `pr_created` record. -/
structure PrItem where
  sessionId : List Char
  prUrl : List Char
  cwd : List Char
deriving DecidableEq, Repr

/-- `QueueProcessor.processPrCreated(item)`, embedded as the trace of
tracker mutations it issues.  `createdIdentifier` is the oracle for
`this.linearClient.createIssue(...)?.identifier` (`none` models a
null result).  Issue resolution is `findMatchingIssue(null, cwd)`,
which returns `null` without a search (see `findMatchingIssue`);
the `matcher` case below is unreachable for a `null` content. -/
def processPrCreated (cachedTeamId cachedUserId : Option (List Char))
    (cachedStates : List WState) (item : PrItem)
    (createdIdentifier : Option (List Char)) : List LAction :=
  let issueId0 : Option (List Char) :=
    match findMatchingIssue none item.cwd with
    | MatchOutcome.branch m => some m
    | _ => none
  let (createActs, issueId) :=
    match issueId0, cachedTeamId with
    | none, some teamId =>
      let title := ("PR created: ").data ++
        (splitOnChar '/' item.prUrl).getLastD []
      ([LAction.createIssue title (("Pull Request: ").data ++ item.prUrl)
          teamId cachedUserId],
       createdIdentifier)
    | _, _ => ([], issueId0)
  match issueId with
  | none => createActs
  | some iid =>
    let withLink := createActs ++
      [LAction.attachLink iid item.prUrl ("Pull Request").data]
    -- getStateId("In Review") || getStateId("review")
    match
      (match getStateId cachedStates ("In Review").data with
       | some sid => some sid
       | none => getStateId cachedStates ("review").data) with
    | some reviewStateId => withLink ++ [LAction.updateStatus iid reviewStateId]
    | none => withLink

/-! ## Token-bucket rate limiter (`src/utils/rate-limiter.ts`)

The limiter's mutable fields are a state record; `Date.now()`
timestamps are rationals in milliseconds.  `acquire()` is embedded
as a function from the call time to the completion time (the moment
the token is actually taken, after the sleep when the bucket is
low) and the successor state.  The matcher awaits each `acquire()`
before issuing work, so consecutive calls are sequential: each call
time is at least the previous completion time. -/

structure RLState where
  tokens : ℚ
  lastRefill : ℚ
deriving DecidableEq, Repr

/-- `refill()` at time `now`, for capacity `maxTokens` and
`refillRate` tokens per second. -/
def refill (maxTokens refillRate : ℚ) (now : ℚ) (s : RLState) : RLState :=
  let elapsed := (now - s.lastRefill) / 1000
  { tokens := jsMin maxTokens (s.tokens + elapsed * refillRate)
    lastRefill := now }

/-- `acquire()` entered at time `t`: returns the completion time and
the state after the token is taken. -/
def acquireAt (maxTokens refillRate : ℚ) (t : ℚ) (s : RLState) :
    ℚ × RLState :=
  let s1 := refill maxTokens refillRate t s
  if s1.tokens < 1 then
    let waitTime := ((1 - s1.tokens) / refillRate) * 1000
    let s2 := refill maxTokens refillRate (t + waitTime) s1
    (t + waitTime, { s2 with tokens := s2.tokens - 1 })
  else
    (t, { s1 with tokens := s1.tokens - 1 })

/-- The fresh limiter built by `new RateLimiter(maxPerMinute)` at
time `t0`: full bucket, refill clock at `t0`. -/
def initRL (maxPerMinute : ℚ) (t0 : ℚ) : RLState :=
  { tokens := maxPerMinute, lastRefill := t0 }

/-- Completion times of a sequence of `acquire()` calls entered at
the given times. -/
def runCalls (maxTokens refillRate : ℚ) : RLState → List ℚ → List ℚ
  | _, [] => []
  | s, t :: ts =>
    let step := acquireAt maxTokens refillRate t s
    step.1 :: runCalls maxTokens refillRate step.2 ts

/-- Sequentiality of the call times: every `acquire()` is entered no
earlier than the limiter clock (the previous completion). -/
def callsOk (maxTokens refillRate : ℚ) : RLState → List ℚ → Bool
  | _, [] => true
  | s, t :: ts =>
    let step := acquireAt maxTokens refillRate t s
    decide (s.lastRefill ≤ t) && callsOk maxTokens refillRate step.2 ts

/-- Number of completions inside the closed window `[a, b]`. -/
def countIn (a b : ℚ) (l : List ℚ) : Nat :=
  (l.filter (fun t => decide (a ≤ t) && decide (t ≤ b))).length

/-! ## JSON and the line-oriented readers
(`src/queue/reader.ts` `readAllItems`,
`src/transcript/parser.ts` `parseTranscript`)

`JSON.parse` is embedded as a recursive-descent parser over
`List Char` into a `Json` value tree, with the strict JSON grammar
(no trailing input, no leading zeros, no raw control characters in
strings, last duplicate object key wins on access).  A thrown
`SyntaxError` is `none`. -/

inductive Json where
  | null
  | bool (b : Bool)
  | num (q : ℚ)
  | str (s : List Char)
  | arr (xs : List Json)
  | obj (fields : List (List Char × Json))

def skipWsL (l : List Char) : List Char := l.dropWhile wsChar

def hexVal (c : Char) : Option Nat :=
  if '0' ≤ c && c ≤ '9' then some (c.toNat - 48)
  else if 'a' ≤ c && c ≤ 'f' then some (c.toNat - 87)
  else if 'A' ≤ c && c ≤ 'F' then some (c.toNat - 55)
  else none

def escChar (c : Char) : Option Char :=
  if c = '"' then some '"'
  else if c = '\\' then some '\\'
  else if c = '/' then some '/'
  else if c = 'b' then some (Char.ofNat 8)
  else if c = 'f' then some (Char.ofNat 12)
  else if c = 'n' then some '\n'
  else if c = 'r' then some '\r'
  else if c = 't' then some '\t'
  else none

/-- Parse the remainder of a JSON string literal (after the opening
quote): the decoded characters and the input after the closing
quote.  A `\uXXXX` escape that does not denote a Unicode scalar
value decodes to `U+0000` in this model. -/
def parseStringRest : List Char → Option (List Char × List Char)
  | [] => none
  | '"' :: rest => some ([], rest)
  | '\\' :: 'u' :: a :: b :: c :: d :: rest =>
    match hexVal a, hexVal b, hexVal c, hexVal d with
    | some ha, some hb, some hc, some hd =>
      (parseStringRest rest).map
        (fun p => (Char.ofNat (4096 * ha + 256 * hb + 16 * hc + hd) :: p.1,
                   p.2))
    | _, _, _, _ => none
  | '\\' :: e :: rest =>
    (escChar e).bind
      (fun ch => (parseStringRest rest).map (fun p => (ch :: p.1, p.2)))
  | c :: rest =>
    if c.toNat < 32 then none
    else (parseStringRest rest).map (fun p => (c :: p.1, p.2))

def digitsToNat (ds : List Char) : Nat :=
  ds.foldl (fun n c => n * 10 + (c.toNat - 48)) 0

/-- Parse a JSON number (strict grammar:
`-?(0|[1-9][0-9]*)(\.[0-9]+)?([eE][+-]?[0-9]+)?`). -/
def parseNumber (l : List Char) : Option (ℚ × List Char) :=
  let (neg, l1) :=
    match l with
    | '-' :: r => (true, r)
    | _ => (false, l)
  let intPart : Option (ℚ × List Char) :=
    match l1 with
    | '0' :: r =>
      match r with
      | c :: _ => if isDigit09 c then none else some (0, r)
      | [] => some (0, [])
    | c :: _ =>
      if isDigit09 c then
        let ds := l1.takeWhile isDigit09
        some ((digitsToNat ds : ℚ), l1.drop ds.length)
      else none
    | [] => none
  intPart.bind (fun p =>
    let (ival, r1) := p
    let fracPart : Option (ℚ × List Char) :=
      match r1 with
      | '.' :: r2 =>
        let ds := r2.takeWhile isDigit09
        if ds.isEmpty then none
        else some (ival + (digitsToNat ds : ℚ) / ((10 : ℚ) ^ ds.length),
                   r2.drop ds.length)
      | _ => some (ival, r1)
    fracPart.bind (fun q =>
      let (fval, r3) := q
      let expPart : Option (ℚ × List Char) :=
        match r3 with
        | e :: r4 =>
          if e = 'e' || e = 'E' then
            let (eneg, r5) :=
              match r4 with
              | '+' :: r6 => (false, r6)
              | '-' :: r6 => (true, r6)
              | _ => (false, r4)
            let ds := r5.takeWhile isDigit09
            if ds.isEmpty then none
            else
              let ex := digitsToNat ds
              some ((if eneg then fval / ((10 : ℚ) ^ ex)
                     else fval * ((10 : ℚ) ^ ex)),
                    r5.drop ds.length)
          else some (fval, r3)
        | [] => some (fval, [])
      expPart.map (fun z => ((if neg then -z.1 else z.1), z.2))))

mutual

/-- Parse one JSON value; returns the value and the remaining input. -/
def parseValue : Nat → List Char → Option (Json × List Char)
  | 0, _ => none
  | fuel + 1, l =>
    match skipWsL l with
    | 'n' :: 'u' :: 'l' :: 'l' :: rest => some (Json.null, rest)
    | 't' :: 'r' :: 'u' :: 'e' :: rest => some (Json.bool true, rest)
    | 'f' :: 'a' :: 'l' :: 's' :: 'e' :: rest => some (Json.bool false, rest)
    | '"' :: rest => (parseStringRest rest).map (fun p => (Json.str p.1, p.2))
    | '[' :: rest =>
      (match skipWsL rest with
       | ']' :: r2 => some (Json.arr [], r2)
       | r2 => parseElems fuel r2 [])
    | '{' :: rest =>
      (match skipWsL rest with
       | '}' :: r2 => some (Json.obj [], r2)
       | r2 => parseMembers fuel r2 [])
    | l2 => (parseNumber l2).map (fun p => (Json.num p.1, p.2))

/-- Parse the elements of a non-empty JSON array. -/
def parseElems : Nat → List Char → List Json → Option (Json × List Char)
  | 0, _, _ => none
  | fuel + 1, l, acc =>
    match parseValue fuel l with
    | none => none
    | some (v, rest) =>
      match skipWsL rest with
      | ',' :: r2 => parseElems fuel r2 (acc ++ [v])
      | ']' :: r2 => some (Json.arr (acc ++ [v]), r2)
      | _ => none

/-- Parse the members of a non-empty JSON object. -/
def parseMembers : Nat → List Char → List (List Char × Json) →
    Option (Json × List Char)
  | 0, _, _ => none
  | fuel + 1, l, acc =>
    match skipWsL l with
    | '"' :: r1 =>
      match parseStringRest r1 with
      | none => none
      | some (key, r2) =>
        match skipWsL r2 with
        | ':' :: r3 =>
          match parseValue fuel r3 with
          | none => none
          | some (v, r4) =>
            match skipWsL r4 with
            | ',' :: r5 => parseMembers fuel r5 (acc ++ [(key, v)])
            | '}' :: r5 => some (Json.obj (acc ++ [(key, v)]), r5)
            | _ => none
        | _ => none
    | _ => none

end

/-- `JSON.parse(l)`: one JSON value, nothing but whitespace after it. -/
def parseJson (l : List Char) : Option Json :=
  match parseValue (2 * l.length + 8) l with
  | some (v, rest) => if (skipWsL rest).isEmpty then some v else none
  | none => none

/-- JavaScript property access `obj[k]` on a parsed value: the last
member with that key wins (as in `JSON.parse` object construction). -/
def getFieldJS (j : Json) (k : List Char) : Option Json :=
  match j with
  | Json.obj fs => fs.foldl (fun acc p => if p.1 = k then some p.2 else acc) none
  | _ => none

/-- `content.trim().split("\n").filter(Boolean)`: the non-blank
lines both readers iterate over. -/
def linesOf (content : List Char) : List (List Char) :=
  (splitOnChar '\n' (trimL content)).filter (fun l => !l.isEmpty)

/-- The `lines.map((line) => JSON.parse(line))` step of
`readAllItems` in `src/queue/reader.ts`: `map` evaluates left to
right and a `SyntaxError` escapes, modelled by `none`. -/
def parseAllLines : List (List Char) → Option (List Json)
  | [] => some []
  | l :: ls => (parseJson l).bind (fun v => (parseAllLines ls).map (fun r => v :: r))

/-- `readAllItems()` applied to the queue-file content (`none` is
the thrown `SyntaxError`). -/
def readAllItems (content : List Char) : Option (List Json) :=
  parseAllLines (linesOf content)

/-- `entry.type === t` on a parsed transcript entry. -/
def typeIs (e : Json) (t : List Char) : Bool :=
  match getFieldJS e (("type").data) with
  | some (Json.str s) => s = t
  | _ => false

/-- `parseTranscript(path)` applied to the file content
(`src/transcript/parser.ts`): parse line by line inside
`try { … } catch { }`, keep `user` and `assistant` entries. -/
def parseTranscript (content : List Char) : List Json :=
  (linesOf content).foldl
    (fun entries line =>
      match parseJson line with
      | some e =>
        if typeIs e (("user").data) || typeIs e (("assistant").data) then
          entries ++ [e]
        else entries
      | none => entries)
    []

/-- The transcript records exactly as claim C5 describes them: the
well-formed JSON lines (blank and invalid lines skipped), restricted
to `user`/`assistant` entries. -/
def parseTranscriptClaim (content : List Char) : List Json :=
  (linesOf content).filterMap
    (fun line =>
      (parseJson line).bind
        (fun e =>
          if typeIs e (("user").data) || typeIs e (("assistant").data) then
            some e
          else none))

/-! ## Helper lemmas about `updateFirst` -/

/-- `i` is the first index of `items` holding the record with the
given `id` (the index `findIndex` returns), and `old` is that
record. -/
def FirstIdxWith (items : List QItem) (id : List Char) (i : Nat)
    (old : QItem) : Prop :=
  items[i]? = some old ∧ old.id = id ∧
    ∀ j, j < i → ∀ x, items[j]? = some x → x.id ≠ id

theorem updateFirst_eq_set (f : QItem → QItem) :
    ∀ (items : List QItem) (id : List Char) (i : Nat) (old : QItem),
      FirstIdxWith items id i old →
      updateFirst items id f = some (items.set i (f old)) := by
  intro items
  induction items with
  | nil => intro id i old h; exact absurd h.1 (by simp)
  | cons it rest ih =>
    intro id i old h
    obtain ⟨hget, hid, hfirst⟩ := h
    cases i with
    | zero =>
      simp at hget
      subst hget
      simp [updateFirst, hid]
    | succ i =>
      have hne : it.id ≠ id := by
        have := hfirst 0 (Nat.succ_pos i) it (by simp)
        exact this
      have hrest : FirstIdxWith rest id i old := by
        refine ⟨by simpa using hget, hid, ?_⟩
        intro j hj x hx
        exact hfirst (j + 1) (Nat.succ_lt_succ hj) x (by simpa using hx)
      simp [updateFirst, hne, ih id i old hrest, List.set]

theorem updateFirst_eq_none (f : QItem → QItem) :
    ∀ (items : List QItem) (id : List Char),
      (∀ it ∈ items, it.id ≠ id) → updateFirst items id f = none := by
  intro items
  induction items with
  | nil => intro id _; rfl
  | cons it rest ih =>
    intro id h
    have hne : it.id ≠ id := h it (by simp)
    simp [updateFirst, hne, ih id (fun x hx => h x (by simp [hx]))]

theorem exists_firstIdxWith :
    ∀ (items : List QItem) (id : List Char),
      (∃ it ∈ items, it.id = id) →
      ∃ i old, FirstIdxWith items id i old := by
  intro items
  induction items with
  | nil => intro id h; simp at h
  | cons it rest ih =>
    intro id h
    by_cases hit : it.id = id
    · exact ⟨0, it, by simp, hit, by intro j hj; omega⟩
    · obtain ⟨x, hx, hxid⟩ := h
      have hx2 : x ∈ rest := by
        rcases List.mem_cons.mp hx with h1 | h1
        · exact absurd (h1 ▸ hxid) hit
        · exact h1
      obtain ⟨i, old, hF⟩ := ih id ⟨x, hx2, hxid⟩
      refine ⟨i + 1, old, by simpa using hF.1, hF.2.1, ?_⟩
      intro j hj x hxj
      cases j with
      | zero => simp at hxj; exact hxj ▸ hit
      | succ j => exact hF.2.2 j (by omega) x (by simpa using hxj)

theorem firstIdxWith_lt_length {items : List QItem} {id : List Char}
    {i : Nat} {old : QItem} (h : FirstIdxWith items id i old) :
    i < items.length :=
  (List.getElem?_eq_some_iff.mp h.1).1

theorem firstIdxWith_set_self {items : List QItem} {id : List Char}
    {i : Nat} {old : QItem} (h : FirstIdxWith items id i old)
    (a : QItem) (ha : a.id = id) :
    FirstIdxWith (items.set i a) id i a := by
  refine ⟨List.getElem?_set_self (firstIdxWith_lt_length h), ha, ?_⟩
  intro j hj x hx
  have hji : i ≠ j := by omega
  rw [List.getElem?_set_ne hji] at hx
  exact h.2.2 j hj x hx

/-- `updateItemStatus` when the target record is present: the result
is exactly the file with the first matching record rewritten. -/
theorem updateItemStatus_eq (items : List QItem) (id : List Char)
    (status : QStatus) (err : Option (List Char)) (i : Nat) (old : QItem)
    (h : FirstIdxWith items id i old) :
    updateItemStatus items id status err =
      Except.ok (items.set i
        { old with
          status := status
          error := err
          retryCount :=
            if status = QStatus.failed then some (old.retryCount.getD 0 + 1)
            else old.retryCount }) := by
  unfold updateItemStatus
  rw [updateFirst_eq_set _ items id i old h]

/-- `updateItemStatus` when no record has the `id`: it throws. -/
theorem updateItemStatus_not_found (items : List QItem) (id : List Char)
    (status : QStatus) (err : Option (List Char))
    (h : ∀ it ∈ items, it.id ≠ id) :
    updateItemStatus items id status err =
      Except.error (("Queue item not found: ").data ++ id) := by
  unfold updateItemStatus
  rw [updateFirst_eq_none _ items id h]

/-! ## Concrete queue records used by witnesses -/

def itemA : QItem :=
  { id := ("q1").data
    type := ("session_stop").data
    timestamp := ("2025-01-01T00:00:00.000Z").data
    status := QStatus.pending
    error := none
    retryCount := none
    sessionId := ("s1").data
    transcriptPath := some ("/tmp/s1.jsonl").data
    prUrl := none
    cwd := ("/repo").data }

def itemB : QItem :=
  { id := ("q2").data
    type := ("pr_created").data
    timestamp := ("2025-01-01T00:00:01.000Z").data
    status := QStatus.failed
    error := some ("boom").data
    retryCount := some 1
    sessionId := ("s1").data
    transcriptPath := none
    prUrl := some ("https://github.com/acme/w/pull/7").data
    cwd := ("/repo").data }

def itemBogus : QItem :=
  { id := ("q3").data
    type := ("bogus_kind").data
    timestamp := ("2025-01-01T00:00:02.000Z").data
    status := QStatus.pending
    error := none
    retryCount := none
    sessionId := ("s2").data
    transcriptPath := none
    prUrl := none
    cwd := ("/repo").data }

/-! ## Claim C7: `update_status` frame property -/

/-- Claim C7: when the queue contains a record with the given id,
`update_status` rewrites the file so that only the target record
changes: its status becomes the new status, its `retryCount` is
incremented exactly when the new status is `failed` (and in
particular left as-is when the new status is `pending`), and every
other record of the file is unchanged. -/
theorem updateItemStatus_frame (items : List QItem) (id : List Char)
    (status : QStatus) (err : Option (List Char))
    (h : ∃ it ∈ items, it.id = id) :
    ∃ items2, updateItemStatus items id status err = Except.ok items2 ∧
      items2.length = items.length ∧
      ∃ (i : Nat) (old : QItem), items[i]? = some old ∧ old.id = id ∧
        (∀ j, j ≠ i → items2[j]? = items[j]?) ∧
        items2[i]? = some
          { old with
            status := status
            error := err
            retryCount :=
              if status = QStatus.failed then some (old.retryCount.getD 0 + 1)
              else old.retryCount } := by
  obtain ⟨i, old, hF⟩ := exists_firstIdxWith items id h
  refine ⟨_, updateItemStatus_eq items id status err i old hF, ?_, i, old,
    hF.1, hF.2.1, ?_, ?_⟩
  · exact List.length_set items i _
  · intro j hj
    exact List.getElem?_set_ne (fun he => hj he.symm)
  · exact List.getElem?_set_self (firstIdxWith_lt_length hF)

/-- Witness for C7 at a concrete two-record queue: the second record
is marked `failed`, its retry count goes from 1 to 2, and the first
record is untouched. -/
theorem updateItemStatus_frame_witness :
    (∃ it ∈ [itemA, itemB], it.id = ("q2").data) ∧
      (∃ items2,
        updateItemStatus [itemA, itemB] (("q2").data) QStatus.failed
            (some ("http 500").data) = Except.ok items2 ∧
        items2.length = ([itemA, itemB] : List QItem).length ∧
        ∃ (i : Nat) (old : QItem), ([itemA, itemB] : List QItem)[i]? = some old ∧
          old.id = ("q2").data ∧
          (∀ j, j ≠ i → items2[j]? = ([itemA, itemB] : List QItem)[j]?) ∧
          items2[i]? = some
            { old with
              status := QStatus.failed
              error := some ("http 500").data
              retryCount :=
                if QStatus.failed = QStatus.failed then
                  some (old.retryCount.getD 0 + 1)
                else old.retryCount }) :=
  ⟨by decide, updateItemStatus_frame [itemA, itemB] (("q2").data)
    QStatus.failed (some ("http 500").data) (by decide)⟩

/-! ## Claim C10: `update_status` on a missing id -/

/-- Claim C10: when no record carries the given id, `update_status`
— and with it `markAsProcessing`, `markAsProcessed`, `markAsFailed`
and `resetToPending` — throws `Queue item not found: <id>`; the
throw happens before `writeAllItems`, so the queue file is not
rewritten and every record is left unchanged (the `Except.error`
result carries no successor state). -/
theorem updateItemStatus_missing_id (items : List QItem) (id : List Char)
    (status : QStatus) (err : Option (List Char)) (msg : List Char)
    (h : ∀ it ∈ items, it.id ≠ id) :
    updateItemStatus items id status err =
        Except.error (("Queue item not found: ").data ++ id) ∧
      markAsProcessing items id =
        Except.error (("Queue item not found: ").data ++ id) ∧
      markAsProcessed items id =
        Except.error (("Queue item not found: ").data ++ id) ∧
      markAsFailed items id msg =
        Except.error (("Queue item not found: ").data ++ id) ∧
      resetToPending items id =
        Except.error (("Queue item not found: ").data ++ id) := by
  refine ⟨?_, ?_, ?_, ?_, ?_⟩ <;>
    first
      | exact updateItemStatus_not_found items id status err h
      | exact updateItemStatus_not_found items id _ _ h

/-- Witness for C10 at a concrete queue lacking the id `missing`. -/
theorem updateItemStatus_missing_id_witness :
    (∀ it ∈ [itemA, itemB], it.id ≠ ("missing").data) ∧
      updateItemStatus [itemA, itemB] (("missing").data) QStatus.processed
          none =
        Except.error (("Queue item not found: ").data ++ ("missing").data) :=
  ⟨by decide,
    (updateItemStatus_missing_id [itemA, itemB] (("missing").data)
      QStatus.processed none (("e").data) (by decide)).1⟩

/-! ## Claim C6: records of unknown kind

The specification says unknown kinds are a hard failure with a
descriptive error.  `processItem` has no such branch: a record whose
`type` is neither `session_stop` nor `pr_created` matches neither
type guard, no handler runs, nothing throws, and the record is
marked `processed`. -/

/-- Counterexample to claim C6: a concrete record of kind
`bogus_kind` is not marked `failed` with an error — `processItem`
silently marks it `processed` (and `processed ≠ failed`). -/
theorem processItem_unknown_kind_counterexample :
    processItem (fun _ => Except.ok ()) (fun _ => Except.ok ())
        [itemBogus] itemBogus =
      Except.ok [{ itemBogus with status := QStatus.processed }] ∧
    ({ itemBogus with status := QStatus.processed } : QItem).status ≠
      QStatus.failed := by
  constructor
  · rfl
  · decide

/-- Claim C6 as amended: a queue record whose kind is neither
`session_stop` nor `pr_created` is not dispatched to any handler
(the conclusion does not depend on the handlers) and does not fail:
`processItem` marks it `processing` and then `processed`, recording
no error, and leaves every other record unchanged. -/
theorem processItem_unknown_kind
    (handleSessionStop handlePrCreated : QItem → Except (List Char) Unit)
    (items : List QItem) (item : QItem) (i : Nat) (old : QItem)
    (hss : item.type ≠ ("session_stop").data)
    (hpr : item.type ≠ ("pr_created").data)
    (hF : FirstIdxWith items item.id i old) :
    ∃ items2,
      processItem handleSessionStop handlePrCreated items item =
          Except.ok items2 ∧
      items2[i]? = some
        { old with status := QStatus.processed, error := none } ∧
      (∀ j, j ≠ i → items2[j]? = items[j]?) := by
  have h1 : markAsProcessing items item.id =
      Except.ok (items.set i
        { old with status := QStatus.processing, error := none }) := by
    have := updateItemStatus_eq items item.id QStatus.processing none i old hF
    simpa [markAsProcessing] using this
  have hF2 : FirstIdxWith
      (items.set i { old with status := QStatus.processing, error := none })
      item.id i { old with status := QStatus.processing, error := none } :=
    firstIdxWith_set_self hF _ hF.2.1
  have h2 : markAsProcessed
      (items.set i { old with status := QStatus.processing, error := none })
      item.id =
      Except.ok ((items.set i
          { old with status := QStatus.processing, error := none }).set i
        { old with status := QStatus.processed, error := none }) := by
    have := updateItemStatus_eq
      (items.set i { old with status := QStatus.processing, error := none })
      item.id QStatus.processed none i
      { old with status := QStatus.processing, error := none } hF2
    simpa [markAsProcessed] using this
  refine ⟨items.set i { old with status := QStatus.processed, error := none },
    ?_, ?_, ?_⟩
  · unfold processItem
    rw [h1]
    simp only [hss, hpr, if_false]
    rw [h2, List.set_set]
  · exact List.getElem?_set_self (firstIdxWith_lt_length hF)
  · intro j hj
    exact List.getElem?_set_ne (fun he => hj he.symm)

/-- Witness for the amended C6 at a concrete queue. -/
theorem processItem_unknown_kind_witness :
    (itemBogus.type ≠ ("session_stop").data ∧
      itemBogus.type ≠ ("pr_created").data ∧
      FirstIdxWith [itemA, itemBogus] itemBogus.id 1 itemBogus) ∧
    ∃ items2,
      processItem (fun _ => Except.ok ()) (fun _ => Except.ok ())
          [itemA, itemBogus] itemBogus = Except.ok items2 ∧
      items2[1]? = some
        { itemBogus with status := QStatus.processed, error := none } ∧
      (∀ j, j ≠ 1 → items2[j]? = ([itemA, itemBogus] : List QItem)[j]?) := by
  have hF : FirstIdxWith [itemA, itemBogus] itemBogus.id 1 itemBogus := by
    refine ⟨by rfl, rfl, ?_⟩
    intro j hj x hx
    interval_cases j
    simp at hx
    subst hx
    decide
  exact ⟨⟨by decide, by decide, hF⟩,
    processItem_unknown_kind (fun _ => Except.ok ()) (fun _ => Except.ok ())
      [itemA, itemBogus] itemBogus 1 itemBogus (by decide) (by decide) hF⟩

/-! ## Claim C1: branch extraction short-circuits the matcher -/

/-- Claim C1: for every session content whose `git_branch` contains a
substring matched by the configured branch pattern (the default
`([A-Z]+-\d+)`, written literally at this call site), the matcher
returns the identifier captured by group 1 at the first match (the
branch path is the definitive, confidence-1.0 "exact" resolution)
and performs no further work: the reified outcome is the immediate
`branch` return, which issues no tracker search and no LLM call. -/
theorem findMatchingIssue_branch (c : SessionContentJS) (cwd b m : List Char)
    (hb : c.gitBranch = some b) (hm : firstBranchMatch b = some m) :
    findMatchingIssue (some c) cwd = MatchOutcome.branch m ∧
      (findMatchingIssue (some c) cwd).directResult = some m ∧
      (findMatchingIssue (some c) cwd).issuesCalls = false := by
  have houter : findMatchingIssue (some c) cwd = MatchOutcome.branch m := by
    unfold findMatchingIssue
    simp [hb, hm]
  exact ⟨houter, by rw [houter]; rfl, by rw [houter]; rfl⟩

/-- Witness for C1: the branch `feature/ENG-123-add-login` resolves
to `ENG-123` with no tracker or LLM call. -/
theorem findMatchingIssue_branch_witness :
    (({ userMessages := [("anything").data]
        assistantMessages := []
        gitBranch := some ("feature/ENG-123-add-login").data } :
          SessionContentJS).gitBranch =
        some ("feature/ENG-123-add-login").data ∧
      firstBranchMatch ("feature/ENG-123-add-login").data =
        some ("ENG-123").data) ∧
    findMatchingIssue
        (some { userMessages := [("anything").data]
                assistantMessages := []
                gitBranch := some ("feature/ENG-123-add-login").data })
        (("/repo").data) =
      MatchOutcome.branch ("ENG-123").data :=
  ⟨⟨rfl, by decide⟩,
    (findMatchingIssue_branch _ (("/repo").data)
      (("feature/ENG-123-add-login").data) (("ENG-123").data) rfl
      (by decide)).1⟩

/-! ## Claim C3: the watcher's early rejection after a branch miss -/

/-- Claim C3: when branch extraction has failed, the fallback
`SessionWatcher.findMatchingIssue` (on a session that is not in the
match cache) returns nothing and performs no keyword or semantic
search whenever fewer than two entries have accumulated for the
session or the extracted primary request is shorter than 20
characters: the reified outcome is `tooFewEntries` or `tooShort`,
which carries no issue and never reaches `hybridMatcher.findMatch`. -/
theorem watcher_early_reject (entries : List SessionLogEntry)
    (h : entries.length < 2 ∨
      (extractPrimaryRequest
        (entries.filter (fun e => e.type = ("user").data))).length < 20) :
    (watcherFindMatchingIssue none entries = WatcherOutcome.tooFewEntries ∨
      watcherFindMatchingIssue none entries = WatcherOutcome.tooShort) ∧
    (watcherFindMatchingIssue none entries).directResult = none ∧
    (watcherFindMatchingIssue none entries).invokesSearch = false := by
  by_cases hlen : entries.length < 2
  · have : watcherFindMatchingIssue none entries =
        WatcherOutcome.tooFewEntries := by
      unfold watcherFindMatchingIssue
      simp [hlen]
    exact ⟨Or.inl this, by rw [this]; rfl, by rw [this]; rfl⟩
  · have hshort : (extractPrimaryRequest
        (entries.filter (fun e => e.type = ("user").data))).length < 20 := by
      rcases h with h | h
      · exact absurd h hlen
      · exact h
    have : watcherFindMatchingIssue none entries = WatcherOutcome.tooShort := by
      unfold watcherFindMatchingIssue
      simp [hlen, hshort]
    exact ⟨Or.inr this, by rw [this]; rfl, by rw [this]; rfl⟩

def shortUserEntry : SessionLogEntry :=
  { type := ("user").data
    sessionId := ("s1").data
    cwd := some ("/repo").data
    gitBranch := some ("main").data
    timestamp := ("2025-01-01T00:00:00.000Z").data
    message := some { role := ("user").data
                      content := MsgContent.str ("fix bug").data } }

def assistantEntry : SessionLogEntry :=
  { type := ("assistant").data
    sessionId := ("s1").data
    cwd := none
    gitBranch := none
    timestamp := ("2025-01-01T00:00:01.000Z").data
    message := some { role := ("assistant").data
                      content := MsgContent.blocks [] } }

/-- Witness for C3: two accumulated entries whose primary request
`fix bug` has fewer than 20 characters are rejected without any
search. -/
theorem watcher_early_reject_witness :
    (([shortUserEntry, assistantEntry] : List SessionLogEntry).length < 2 ∨
      (extractPrimaryRequest
        (([shortUserEntry, assistantEntry] : List SessionLogEntry).filter
          (fun e => e.type = ("user").data))).length < 20) ∧
    (watcherFindMatchingIssue none [shortUserEntry, assistantEntry] =
        WatcherOutcome.tooFewEntries ∨
      watcherFindMatchingIssue none [shortUserEntry, assistantEntry] =
        WatcherOutcome.tooShort) ∧
    (watcherFindMatchingIssue none
      [shortUserEntry, assistantEntry]).directResult = none ∧
    (watcherFindMatchingIssue none
      [shortUserEntry, assistantEntry]).invokesSearch = false :=
  ⟨Or.inr (by decide),
    watcher_early_reject [shortUserEntry, assistantEntry]
      (Or.inr (by decide))⟩

/-! ## String lemmas for the keyword-score proof -/

theorem startsWithL_iff (p : List Char) :
    ∀ l, startsWithL p l = true ↔ ∃ t, l = p ++ t := by
  induction p with
  | nil => intro l; simp [startsWithL]
  | cons a as ih =>
    intro l
    cases l with
    | nil =>
      simp [startsWithL]
    | cons b bs =>
      simp only [startsWithL, Bool.and_eq_true, decide_eq_true_eq, ih bs]
      constructor
      · rintro ⟨rfl, t, rfl⟩
        exact ⟨t, rfl⟩
      · rintro ⟨t, ht⟩
        cases ht
        exact ⟨rfl, t, rfl⟩

theorem containsL_iff (n : List Char) :
    ∀ h, containsL h n = true ↔ ∃ s t, h = s ++ n ++ t := by
  intro h
  induction h with
  | nil =>
    simp only [containsL, startsWithL_iff]
    constructor
    · rintro ⟨t, ht⟩
      exact ⟨[], t, by simpa using ht⟩
    · rintro ⟨s, t, hst⟩
      have hs : s = [] := by
        cases s with
        | nil => rfl
        | cons x xs => simp at hst
      subst hs
      exact ⟨t, by simpa using hst⟩
  | cons c cs ih =>
    simp only [containsL, Bool.or_eq_true, startsWithL_iff, ih]
    constructor
    · rintro (⟨t, ht⟩ | ⟨s, t, hst⟩)
      · exact ⟨[], t, by simpa using ht⟩
      · exact ⟨c :: s, t, by simp [hst]⟩
    · rintro ⟨s, t, hst⟩
      cases s with
      | nil => exact Or.inl ⟨t, by simpa using hst⟩
      | cons x xs =>
        simp only [List.cons_append, List.cons.injEq] at hst
        exact Or.inr ⟨xs, t, hst.2⟩

/-- A needle that avoids the separator occurs in `t ++ sep :: d` iff
it occurs in `t` or in `d`. -/
theorem containsL_sep_split (n t d : List Char) (hn : ' ' ∉ n) :
    containsL (t ++ ' ' :: d) n = (containsL t n || containsL d n) := by
  rw [Bool.eq_iff_iff, Bool.or_eq_true, containsL_iff, containsL_iff,
    containsL_iff]
  constructor
  · rintro ⟨s, u, hsu⟩
    rw [List.append_assoc] at hsu
    rcases List.append_eq_append_iff.mp hsu.symm with ⟨a2, ha2, hb2⟩ |
      ⟨c2, hc2, hd2⟩
    · -- t = s ++ a2 and n ++ u = a2 ++ (' ' :: d)
      rcases List.append_eq_append_iff.mp hb2 with ⟨x, hx1, hx2⟩ |
        ⟨y, hy1, hy2⟩
      · -- a2 = n ++ x : the needle sits inside t
        exact Or.inl ⟨s, x, by rw [ha2, hx1, List.append_assoc]⟩
      · -- n = a2 ++ y and ' ' :: d = y ++ u
        cases y with
        | nil =>
          refine Or.inl ⟨s, [], ?_⟩
          rw [ha2, hy1]
          simp
        | cons yc ys =>
          exfalso
          have hyc : yc = ' ' := by
            simp only [List.cons_append, List.cons.injEq] at hy2
            exact hy2.1.symm
          apply hn
          rw [hy1, hyc]
          simp
    · -- s = t ++ c2 and ' ' :: d = c2 ++ (n ++ u)
      cases c2 with
      | nil =>
        cases n with
        | nil => exact Or.inl ⟨[], t, by simp⟩
        | cons nc ns =>
          exfalso
          have hnc : nc = ' ' := by
            simp only [List.nil_append, List.cons_append,
              List.cons.injEq] at hd2
            exact hd2.1.symm
          exact hn (by rw [hnc]; simp)
      | cons cc cs =>
        have hd : d = cs ++ n ++ u := by
          simp only [List.cons_append, List.cons.injEq] at hd2
          simpa [List.append_assoc] using hd2.2
        exact Or.inr ⟨cs, u, hd⟩
  · rintro (⟨s, u, hsu⟩ | ⟨s, u, hsu⟩)
    · exact ⟨s, u ++ ' ' :: d, by rw [hsu]; simp⟩
    · exact ⟨t ++ ' ' :: s, u, by rw [hsu]; simp⟩

theorem lowerStr_append (a b : List Char) :
    lowerStr (a ++ b) = lowerStr a ++ lowerStr b :=
  List.map_append Char.toLower a b

theorem toLower_eq_space {c : Char} (h : Char.toLower c = ' ') : c = ' ' := by
  unfold Char.toLower at h
  simp only [] at h
  by_cases hc : c.toNat ≥ 65 ∧ c.toNat ≤ 90
  · rw [if_pos hc] at h
    exfalso
    have hv : (c.toNat + 32).isValidChar := by
      left
      omega
    have h2 : (Char.ofNat (c.toNat + 32)).toNat = c.toNat + 32 := by
      rw [Char.ofNat, dif_pos hv]
      rfl
    rw [h] at h2
    have h3 : (' ').toNat = 32 := rfl
    omega
  · rw [if_neg hc] at h
    exact h

theorem space_not_mem_lowerStr {kw : List Char}
    (h : ∀ c ∈ kw, wsChar c = false) : ' ' ∉ lowerStr kw := by
  intro hmem
  obtain ⟨c, hc, htl⟩ := List.mem_map.mp hmem
  have hce : c = ' ' := toLower_eq_space htl
  subst hce
  have := h ' ' hc
  simp [wsChar] at this

/-- Score component of the keyword loop: the fold accumulates the
sum of per-keyword contributions. -/
theorem keywordFold_score (issueText titleLower : List Char) :
    ∀ (ks : List (List Char)) (acc : List (List Char) × ℚ),
      (ks.foldl (keywordStep issueText titleLower) acc).2 =
        acc.2 + (ks.map (fun kw =>
          if containsL issueText (lowerStr kw) then
            (if containsL titleLower (lowerStr kw) then (0.15 : ℚ) else 0.05)
          else 0)).sum := by
  intro ks
  induction ks with
  | nil => intro acc; simp
  | cons kw rest ih =>
    intro acc
    simp only [List.foldl_cons, List.map_cons, List.sum_cons, ih]
    unfold keywordStep
    by_cases hc : containsL issueText (lowerStr kw) = true
    · by_cases ht : containsL titleLower (lowerStr kw) = true
      · simp only [hc, ht, if_true]
        ring
      · simp only [Bool.not_eq_true] at ht
        simp only [hc, ht, if_true, Bool.false_eq_true, if_false]
        ring
    · simp only [Bool.not_eq_true] at hc
      simp only [hc, Bool.false_eq_true, if_false]
      ring

/-! ## Claim C4: the keyword-score formula -/

/-- Claim C4: for every issue and extracted session content (whose
keywords are whitespace-free tokens, and whose project name is
non-empty, as the extractor produces them), the keyword score equals
the specification's formula: 0.15 per content keyword appearing
case-insensitively in the title plus 0.05 per keyword appearing only
in the description, plus 0.20 if the project name appears in
title + description, plus `0.30 × (overlap / primary_tokens)` over
the primary-request tokens of length > 2, capped at 1.0. -/
theorem calculateKeywordScore_matches_claim (issue : LinearIssue)
    (content : ExtractedSessionContent)
    (hkw : ∀ kw ∈ content.keywords, ∀ c ∈ kw, wsChar c = false)
    (hpn : content.projectName ≠ []) :
    (calculateKeywordScore issue content).keywordScore =
      keywordScoreClaim issue content := by
  have hsplit : lowerStr (issue.title ++ ' ' :: issue.description.getD []) =
      lowerStr issue.title ++ ' ' :: lowerStr (issue.description.getD []) := by
    rw [lowerStr_append]
    rfl
  have hmap : content.keywords.map (fun kw =>
        if containsL (lowerStr (issue.title ++ ' ' ::
            issue.description.getD [])) (lowerStr kw) then
          (if containsL (lowerStr issue.title) (lowerStr kw) then (0.15 : ℚ)
           else 0.05)
        else 0) =
      content.keywords.map (fun kw =>
        if containsL (lowerStr issue.title) (lowerStr kw) then (0.15 : ℚ)
        else if containsL (lowerStr (issue.description.getD []))
            (lowerStr kw) then 0.05
        else 0) := by
    refine List.map_congr_left (fun kw hmem => ?_)
    simp only [hsplit,
      containsL_sep_split _ _ _ (space_not_mem_lowerStr (hkw kw hmem))]
    by_cases h1 : containsL (lowerStr issue.title) (lowerStr kw) = true
    · simp [h1]
    · simp only [Bool.not_eq_true] at h1
      by_cases h2 : containsL (lowerStr (issue.description.getD []))
          (lowerStr kw) = true
      · simp [h1, h2]
      · simp only [Bool.not_eq_true] at h2
        simp [h1, h2]
  have hempty : content.projectName.isEmpty = false := by
    cases hval : content.projectName with
    | nil => exact absurd hval hpn
    | cons c cs => rfl
  have hfold := keywordFold_score
    (lowerStr (issue.title ++ ' ' :: issue.description.getD []))
    (lowerStr issue.title) content.keywords ([], 0)
  simp only [calculateKeywordScore, keywordScoreClaim, hempty,
    Bool.not_false, Bool.true_and]
  by_cases hp : containsL
      (lowerStr (issue.title ++ ' ' :: issue.description.getD []))
      (lowerStr content.projectName) = true
  · simp only [hp, if_true]
    by_cases hlen : ((splitWsJS (lowerStr content.primaryRequest)).filter
        (fun w => w.length > 2)).length > 0
    · simp only [hlen, if_true]
      rw [hfold, hmap]
      congr 1
      ring
    · have hnil : (splitWsJS (lowerStr content.primaryRequest)).filter
          (fun w => w.length > 2) = [] :=
        List.length_eq_zero.mp (by omega)
      simp only [hlen, if_false]
      rw [hfold, hmap]
      congr 1
      rw [hnil]
      simp only [List.filter_nil, List.length_nil, Nat.cast_zero, zero_div,
        zero_mul]
      ring
  · simp only [Bool.not_eq_true] at hp
    simp only [hp, Bool.false_eq_true, if_false]
    by_cases hlen : ((splitWsJS (lowerStr content.primaryRequest)).filter
        (fun w => w.length > 2)).length > 0
    · simp only [hlen, if_true]
      rw [hfold, hmap]
      congr 1
      ring
    · have hnil : (splitWsJS (lowerStr content.primaryRequest)).filter
          (fun w => w.length > 2) = [] :=
        List.length_eq_zero.mp (by omega)
      simp only [hlen, if_false]
      rw [hfold, hmap]
      congr 1
      rw [hnil]
      simp only [List.filter_nil, List.length_nil, Nat.cast_zero, zero_div,
        zero_mul]
      ring

def issueC4 : LinearIssue :=
  { identifier := ("ENG-42").data
    title := ("Login redirect bug").data
    description := some ("Users get bounced from the login page").data
    stateName := ("In Progress").data }

def contentC4 : ExtractedSessionContent :=
  { primaryRequest := ("fix the login page redirect bug on mobile").data
    additionalContext := []
    keywords := [("login").data, ("redirect").data, ("mobile").data]
    cwd := ("/home/u/web").data
    projectName := ("web").data
    toolPatterns := []
    filePaths := []
    sessionId := ("s1").data }

/-- Witness for C4 at a concrete issue and session content. -/
theorem calculateKeywordScore_matches_claim_witness :
    ((∀ kw ∈ contentC4.keywords, ∀ c ∈ kw, wsChar c = false) ∧
      contentC4.projectName ≠ []) ∧
    (calculateKeywordScore issueC4 contentC4).keywordScore =
      keywordScoreClaim issueC4 contentC4 :=
  ⟨⟨by decide, by decide⟩,
    calculateKeywordScore_matches_claim issueC4 contentC4 (by decide)
      (by decide)⟩

/-! ## Claim C2: final confidence and its cap

`processResults` feeds `keywordScore + stateBonus * 0.1` into
`combineScores` **without** the cap at 1.0 the specification
describes, so a perfect keyword score on an in-progress issue yields
confidence 1.1. -/

theorem calculateStateBonus_bounds (stateName : List Char) :
    0 ≤ calculateStateBonus stateName ∧ calculateStateBonus stateName ≤ 1 := by
  simp only [calculateStateBonus]
  split_ifs <;> norm_num

def issueC2 : LinearIssue :=
  { identifier := ("ENG-1").data
    title := ("alpha beta gamma delta epsilon zeta eta").data
    description := none
    stateName := ("In Progress").data }

def contentC2 : ExtractedSessionContent :=
  { primaryRequest := []
    additionalContext := []
    keywords := [("alpha").data, ("beta").data, ("gamma").data,
      ("delta").data, ("epsilon").data, ("zeta").data, ("eta").data]
    cwd := []
    projectName := ("zzz").data
    toolPatterns := []
    filePaths := []
    sessionId := [] }

/-- Counterexample to claim C2: a candidate whose keyword score is
exactly the cap 1.0 (seven keywords in the title) in an
`In Progress` state, with no semantic score, gets final confidence
`1.1 > 1.0` — the adjusted keyword score is not capped and the final
confidence leaves `[0, 1]`. -/
theorem processResults_confidence_counterexample :
    (calculateKeywordScore issueC2 contentC2).keywordScore = 1 ∧
    (processResults defaultMatcherConfig
        [calculateKeywordScore issueC2 contentC2]
        (fun _ => none)).map (fun r => r.confidence) = [11 / 10] ∧
    ¬((11 / 10 : ℚ) ≤ 1) := by
  have hconst : ∀ kw ∈ contentC2.keywords,
      (if containsL (lowerStr (issueC2.title ++ ' ' ::
          issueC2.description.getD [])) (lowerStr kw) then
        (if containsL (lowerStr issueC2.title) (lowerStr kw) then (0.15 : ℚ)
         else 0.05)
      else 0) = 0.15 := by
    intro kw hkw
    fin_cases hkw <;> rw [if_pos (by decide), if_pos (by decide)]
  have hsum : (contentC2.keywords.map (fun kw =>
      if containsL (lowerStr (issueC2.title ++ ' ' ::
          issueC2.description.getD [])) (lowerStr kw) then
        (if containsL (lowerStr issueC2.title) (lowerStr kw) then (0.15 : ℚ)
         else 0.05)
      else 0)).sum = 21 / 20 := by
    rw [List.map_congr_left hconst]
    show (List.map _ [("alpha").data, ("beta").data, ("gamma").data,
      ("delta").data, ("epsilon").data, ("zeta").data, ("eta").data]).sum =
      21 / 20
    simp only [List.map_cons, List.map_nil, List.sum_cons, List.sum_nil]
    norm_num
  have hks : (calculateKeywordScore issueC2 contentC2).keywordScore = 1 := by
    have hfold := keywordFold_score
      (lowerStr (issueC2.title ++ ' ' :: issueC2.description.getD []))
      (lowerStr issueC2.title) contentC2.keywords ([], 0)
    simp only [calculateKeywordScore]
    rw [if_neg (by decide), if_neg (by decide), hfold, hsum]
    norm_num [jsMin]
  refine ⟨hks, ?_, by norm_num⟩
  have hstate : (calculateKeywordScore issueC2 contentC2).issue = issueC2 :=
    rfl
  have hbonus : calculateStateBonus issueC2.stateName = 1.0 := by
    simp only [calculateStateBonus]
    rw [if_pos (by decide)]
  simp only [processResults, List.map_cons, List.map_nil,
    List.mergeSort_singleton, scoreCandidate, hstate, hks, hbonus,
    combineScores, Option.map_none']
  norm_num

/-- Claim C2 as amended: the adjusted keyword score
`keyword_score + 0.1 × state_bonus` is **not** capped at 1.0, so the
final confidence is the uncapped adjusted score when no semantic
score is present (and the weight-normalized combination otherwise),
and it lies within `[0, 1.1]` — not `[0, 1]` — whenever the incoming
keyword scores lie in `[0, 1]` (which `calculateKeywordScore`
guarantees, claim C4) and the semantic scores lie in `[0, 1]`. -/
theorem processResults_confidence_formula (config : HybridMatcherConfig)
    (keywordResults : List KeywordSearchResult)
    (semanticGet : List Char → Option (ℚ × List Char))
    (hkw : ∀ k ∈ keywordResults, 0 ≤ k.keywordScore ∧ k.keywordScore ≤ 1)
    (hsem : ∀ ident p, semanticGet ident = some p → 0 ≤ p.1 ∧ p.1 ≤ 1)
    (hwk : 0 < config.keywordWeight) (hws : 0 < config.semanticWeight) :
    ∀ r ∈ processResults config keywordResults semanticGet,
      (r.details.semanticScore = none →
        r.confidence = r.details.keywordScore +
          calculateStateBonus r.issue.stateName * 0.1) ∧
      (∀ s, r.details.semanticScore = some s →
        r.confidence =
          (r.details.keywordScore +
              calculateStateBonus r.issue.stateName * 0.1) *
            (config.keywordWeight /
              (config.keywordWeight + config.semanticWeight)) +
          s * (config.semanticWeight /
              (config.keywordWeight + config.semanticWeight))) ∧
      0 ≤ r.confidence ∧ r.confidence ≤ 11 / 10 := by
  intro r hr
  rw [processResults] at hr
  have hperm := List.mergeSort_perm
    (keywordResults.map (scoreCandidate config semanticGet))
    (fun a b => b.confidence ≤ a.confidence)
  have hr2 : r ∈ keywordResults.map (scoreCandidate config semanticGet) :=
    hperm.mem_iff.mp hr
  obtain ⟨k, hk, rfl⟩ := List.mem_map.mp hr2
  obtain ⟨hk0, hk1⟩ := hkw k hk
  obtain ⟨hb0, hb1⟩ := calculateStateBonus_bounds k.issue.stateName
  have hx0 : 0 ≤ k.keywordScore +
      calculateStateBonus k.issue.stateName * 0.1 := by
    nlinarith
  have hx1 : k.keywordScore +
      calculateStateBonus k.issue.stateName * 0.1 ≤ 11 / 10 := by
    nlinarith
  cases hsg : semanticGet k.issue.identifier with
  | none =>
    simp only [scoreCandidate, hsg, Option.map_none', combineScores]
    exact ⟨fun _ => by trivial, fun s hs => by simp at hs, hx0, hx1⟩
  | some p =>
    obtain ⟨hs0, hs1⟩ := hsem k.issue.identifier p hsg
    have hT : 0 < config.keywordWeight + config.semanticWeight := by
      linarith
    have ha0 : 0 ≤ config.keywordWeight /
        (config.keywordWeight + config.semanticWeight) :=
      div_nonneg (le_of_lt hwk) (le_of_lt hT)
    have hb0w : 0 ≤ config.semanticWeight /
        (config.keywordWeight + config.semanticWeight) :=
      div_nonneg (le_of_lt hws) (le_of_lt hT)
    have hab : config.keywordWeight /
          (config.keywordWeight + config.semanticWeight) +
        config.semanticWeight /
          (config.keywordWeight + config.semanticWeight) = 1 := by
      field_simp
    simp only [scoreCandidate, hsg, Option.map_some', combineScores]
    refine ⟨fun hnone => by simp at hnone, fun s hs => ?_, ?_, ?_⟩
    · have hsp : s = p.1 := by
        simpa using hs.symm
      rw [hsp]
    · have h1 : 0 ≤ (k.keywordScore +
          calculateStateBonus k.issue.stateName * 0.1) *
            (config.keywordWeight /
              (config.keywordWeight + config.semanticWeight)) :=
        mul_nonneg hx0 ha0
      have h2 : 0 ≤ p.1 * (config.semanticWeight /
          (config.keywordWeight + config.semanticWeight)) :=
        mul_nonneg hs0 hb0w
      linarith
    · have h1 : (k.keywordScore +
          calculateStateBonus k.issue.stateName * 0.1) *
            (config.keywordWeight /
              (config.keywordWeight + config.semanticWeight)) ≤
          11 / 10 * (config.keywordWeight /
            (config.keywordWeight + config.semanticWeight)) :=
        mul_le_mul_of_nonneg_right hx1 ha0
      have h2 : p.1 * (config.semanticWeight /
            (config.keywordWeight + config.semanticWeight)) ≤
          11 / 10 * (config.semanticWeight /
            (config.keywordWeight + config.semanticWeight)) := by
        have : p.1 ≤ 11 / 10 := by linarith
        exact mul_le_mul_of_nonneg_right this hb0w
      nlinarith [hab]

def keywordResultC2 : KeywordSearchResult :=
  { issue := issueC2
    matchedKeywords := []
    keywordScore := 1 / 2 }

/-- Witness for the amended C2 at a concrete configuration and
candidate list. -/
theorem processResults_confidence_formula_witness :
    ((∀ k ∈ [keywordResultC2], 0 ≤ k.keywordScore ∧ k.keywordScore ≤ 1) ∧
      (∀ (ident : List Char) (p : ℚ × List Char),
        (fun _ => (none : Option (ℚ × List Char))) ident = some p →
        0 ≤ p.1 ∧ p.1 ≤ 1) ∧
      0 < defaultMatcherConfig.keywordWeight ∧
      0 < defaultMatcherConfig.semanticWeight) ∧
    ∀ r ∈ processResults defaultMatcherConfig [keywordResultC2]
        (fun _ => none),
      0 ≤ r.confidence ∧ r.confidence ≤ 11 / 10 := by
  have hkw : ∀ k ∈ [keywordResultC2], 0 ≤ k.keywordScore ∧
      k.keywordScore ≤ 1 := by
    intro k hk
    simp only [List.mem_singleton] at hk
    subst hk
    norm_num [keywordResultC2]
  have hsem : ∀ (ident : List Char) (p : ℚ × List Char),
      (fun _ => (none : Option (ℚ × List Char))) ident =
      some p → 0 ≤ p.1 ∧ p.1 ≤ 1 := by
    intro ident p hp
    simp at hp
  have hwk : 0 < defaultMatcherConfig.keywordWeight := by
    norm_num [defaultMatcherConfig]
  have hws : 0 < defaultMatcherConfig.semanticWeight := by
    norm_num [defaultMatcherConfig]
  exact ⟨⟨hkw, hsem, hwk, hws⟩, fun r hr =>
    (processResults_confidence_formula defaultMatcherConfig
      [keywordResultC2] (fun _ => none) hkw hsem hwk hws r hr).2.2⟩

/-! ## Claim C5: line-oriented readers and malformed lines

`parseTranscript` wraps each `JSON.parse` in `try/catch` and skips
bad lines; `readAllItems` does not — its `lines.map(JSON.parse)`
throws on the first invalid line, aborting the read. -/

def badQueueContent : List Char :=
  ("\x7b\"id\":\"a\"\x7d\nnot json").data

/-- Counterexample to claim C5: a queue file whose first line is
well-formed JSON and whose second is not.  `read_all` raises (the
embedded `none`), rather than silently skipping the invalid line as
the claim states for both readers. -/
theorem readAllItems_invalid_line_counterexample :
    (parseJson (("\x7b\"id\":\"a\"\x7d").data)).isSome = true ∧
    linesOf badQueueContent =
      [("\x7b\"id\":\"a\"\x7d").data, ("not json").data] ∧
    (readAllItems badQueueContent).isSome = false := by
  refine ⟨by decide, by decide, by decide⟩

theorem foldl_keep_filterMap (P : Json → Bool) (g : List Char → Option Json) :
    ∀ (ls : List (List Char)) (acc : List Json),
      ls.foldl (fun entries line =>
        match g line with
        | some e => if P e then entries ++ [e] else entries
        | none => entries) acc =
      acc ++ ls.filterMap (fun line =>
        (g line).bind (fun e => if P e then some e else none)) := by
  intro ls
  induction ls with
  | nil => intro acc; simp
  | cons l ls ih =>
    intro acc
    simp only [List.foldl_cons, List.filterMap_cons]
    cases hg : g l with
    | none => simp [hg, ih]
    | some e =>
      by_cases hP : P e = true
      · simp [hg, hP, ih]
      · simp only [Bool.not_eq_true] at hP
        simp [hg, hP, ih]

theorem parseAllLines_isSome :
    ∀ ls : List (List Char),
      (parseAllLines ls).isSome = true ↔
        ∀ l ∈ ls, (parseJson l).isSome = true := by
  intro ls
  induction ls with
  | nil => simp [parseAllLines]
  | cons l ls ih =>
    simp only [parseAllLines]
    cases hg : parseJson l with
    | none => simp [hg]
    | some v =>
      simp [hg, ih]

/-- Claim C5 as amended: `parseTranscript` yields exactly the
`user`/`assistant` records of the well-formed JSON lines — blank and
invalid lines are silently skipped and never abort — while
`read_all` succeeds exactly when every non-blank line is valid JSON:
a single invalid line makes it throw instead of skipping. -/
theorem line_readers_malformed_input (content : List Char) :
    parseTranscript content = parseTranscriptClaim content ∧
    ((readAllItems content).isSome = true ↔
      ∀ l ∈ linesOf content, (parseJson l).isSome = true) := by
  constructor
  · unfold parseTranscript parseTranscriptClaim
    rw [foldl_keep_filterMap
      (fun e => typeIs e (("user").data) || typeIs e (("assistant").data))
      parseJson (linesOf content) []]
    simp
  · unfold readAllItems
    exact parseAllLines_isSome (linesOf content)

/-! ## Claim C9: the `pr_created` handler -/

def prItemC9 : PrItem :=
  { sessionId := ("s1").data
    prUrl := ("https://github.com/acme/w/pull/7").data
    cwd := ("/repo").data }

/-- Counterexample to claim C9: the placeholder issue's description
is `Pull Request: <url>`, not the bare URL the claim states (the
rest of the handler behaves as claimed at this input: resolution
yields nothing without a search, the title is
`PR created: <last url segment>`, the link is named `Pull Request`,
and the missing review state is non-fatal). -/
theorem processPrCreated_description_counterexample :
    processPrCreated (some ("T").data) none [] prItemC9
        (some ("ENG-9").data) =
      [LAction.createIssue (("PR created: 7").data)
        (("Pull Request: https://github.com/acme/w/pull/7").data)
        (("T").data) none,
       LAction.attachLink (("ENG-9").data) prItemC9.prUrl
        (("Pull Request").data)] ∧
    ("Pull Request: https://github.com/acme/w/pull/7").data ≠
      prItemC9.prUrl := by
  exact ⟨by decide, by decide⟩

/-- Claim C9 as amended: for every `pr_created` record, the handler
resolves via `findMatchingIssue(null, cwd)`, which returns nothing
and issues no search; when a cached team exists (and issue creation
returns an identifier) it creates a placeholder issue titled
`PR created: <last url segment>` whose description is
`Pull Request: <url>` (not the bare URL); it then attaches the URL
as a link named `Pull Request` and finally moves the issue to the
workflow state whose name contains `in review` case-insensitively,
falling back to one containing `review`; a missing review state is
non-fatal (the trace simply ends after the link). -/
theorem processPrCreated_spec (teamId : List Char)
    (user : Option (List Char)) (states : List WState) (item : PrItem)
    (iid : List Char) :
    processPrCreated (some teamId) user states item (some iid) =
      [LAction.createIssue
          ((("PR created: ").data) ++ (splitOnChar '/' item.prUrl).getLastD [])
          ((("Pull Request: ").data) ++ item.prUrl) teamId user,
        LAction.attachLink iid item.prUrl (("Pull Request").data)] ++
        (match reviewStateClaim states with
         | some sid => [LAction.updateStatus iid sid]
         | none => []) ∧
      findMatchingIssue none item.cwd = MatchOutcome.noContent := by
  have hresolve : findMatchingIssue none item.cwd =
      MatchOutcome.noContent := rfl
  refine ⟨?_, hresolve⟩
  have hlower : lowerStr (("review").data) = ("review").data := rfl
  unfold processPrCreated reviewStateClaim getStateId
  rw [hresolve, hlower]
  cases h1 : states.find? (fun s =>
      containsL (lowerStr s.name) (lowerStr (("In Review").data))) with
  | none =>
    cases h2 : states.find? (fun s =>
        containsL (lowerStr s.name) (("review").data)) with
    | none => simp [h1, h2]
    | some st => simp [h1, h2]
  | some st => simp [h1]

/-! ## Claim C8: rate-limiter window bounds -/

theorem jsMin_le_left (a b : ℚ) : jsMin a b ≤ a := by
  rw [jsMin_eq_min]; exact min_le_left a b

theorem jsMin_le_right (a b : ℚ) : jsMin a b ≤ b := by
  rw [jsMin_eq_min]; exact min_le_right a b

/-- Behaviour of one `acquire()`: the completion time advances the
refill clock, never precedes the call, and the surviving token count
is non-negative, at most `capacity - 1`, and bounded by the previous
count plus the refill accrued until completion, minus the token
taken. -/
theorem acquireAt_spec (m r t : ℚ) (s : RLState) (hm : 1 ≤ m)
    (hr : 0 < r) :
    (acquireAt m r t s).2.lastRefill = (acquireAt m r t s).1 ∧
    t ≤ (acquireAt m r t s).1 ∧
    (acquireAt m r t s).2.tokens ≤ m - 1 ∧
    0 ≤ (acquireAt m r t s).2.tokens ∧
    (acquireAt m r t s).2.tokens ≤
      s.tokens + ((acquireAt m r t s).1 - s.lastRefill) / 1000 * r - 1 := by
  simp only [acquireAt, refill]
  split_ifs with hw
  · -- bucket low: sleep until exactly one token has accrued
    set X := jsMin m (s.tokens + (t - s.lastRefill) / 1000 * r) with hX
    have hXle : X ≤ s.tokens + (t - s.lastRefill) / 1000 * r :=
      jsMin_le_right _ _
    have harg : X + (t + (1 - X) / r * 1000 - t) / 1000 * r = 1 := by
      field_simp
      ring
    have hw2 : jsMin m (X + (t + (1 - X) / r * 1000 - t) / 1000 * r) = 1 := by
      rw [harg, jsMin_eq_min, min_eq_right hm]
    have hwait : 0 ≤ (1 - X) / r * 1000 := by
      have h1X : 0 ≤ 1 - X := by linarith
      positivity
    have hkey : (t + (1 - X) / r * 1000 - s.lastRefill) / 1000 * r =
        (t - s.lastRefill) / 1000 * r + (1 - X) := by
      field_simp
      ring
    refine ⟨rfl, by linarith, ?_, ?_, ?_⟩
    · simp only [hw2]
      linarith
    · simp only [hw2]
      norm_num
    · simp only [hw2]
      rw [hkey]
      linarith
  · push_neg at hw
    refine ⟨rfl, le_refl t, ?_, ?_, ?_⟩
    · have := jsMin_le_left m (s.tokens + (t - s.lastRefill) / 1000 * r)
      linarith
    · linarith
    · have := jsMin_le_right m (s.tokens + (t - s.lastRefill) / 1000 * r)
      linarith

theorem countIn_nil (a b : ℚ) : countIn a b [] = 0 := rfl

theorem countIn_cons (a b t : ℚ) (l : List ℚ) :
    countIn a b (t :: l) =
      (if a ≤ t ∧ t ≤ b then 1 else 0) + countIn a b l := by
  simp only [countIn, List.filter_cons]
  by_cases h : a ≤ t ∧ t ≤ b
  · have hcond : (decide (a ≤ t) && decide (t ≤ b)) = true := by
      simp only [Bool.and_eq_true, decide_eq_true_eq]
      exact ⟨h.1, h.2⟩
    rw [if_pos hcond, if_pos h]
    simp [Nat.add_comm]
  · have hcond : ¬((decide (a ≤ t) && decide (t ≤ b)) = true) := by
      simp only [Bool.and_eq_true, decide_eq_true_eq]
      exact h
    rw [if_neg hcond, if_neg h]
    simp

/-- Bound on how many completions can still land inside `[a, b]`
from a given limiter state: none once the clock is past `b`; a full
burst plus the whole window's refill before the window; the current
tokens plus the remaining refill once inside it. -/
def windowBound (m r a b : ℚ) (s : RLState) : ℚ :=
  if b < s.lastRefill then 0
  else if s.lastRefill < a then m + (b - a) / 1000 * r
  else s.tokens + (b - s.lastRefill) / 1000 * r

theorem windowBound_nonneg (m r a b : ℚ) (s : RLState) (hm : 1 ≤ m)
    (hr : 0 < r) (hab : a ≤ b) (htok : 0 ≤ s.tokens) :
    0 ≤ windowBound m r a b s := by
  unfold windowBound
  split_ifs with h1 h2
  · exact le_refl 0
  · have h3 : (0:ℚ) ≤ b - a := by linarith
    have h4 : (0:ℚ) ≤ (b - a) / 1000 * r :=
      mul_nonneg (div_nonneg h3 (by norm_num)) (le_of_lt hr)
    linarith
  · push_neg at h1
    have h3 : (0:ℚ) ≤ b - s.lastRefill := by linarith
    have h4 : (0:ℚ) ≤ (b - s.lastRefill) / 1000 * r :=
      mul_nonneg (div_nonneg h3 (by norm_num)) (le_of_lt hr)
    linarith

/-- The key invariant: a valid sequence of `acquire()` calls from a
state with a non-negative bucket completes at most `windowBound`
times inside `[a, b]`. -/
theorem runCalls_window_bound (m r a b : ℚ) (hm : 1 ≤ m) (hr : 0 < r)
    (hab : a ≤ b) :
    ∀ (calls : List ℚ) (s : RLState), callsOk m r s calls = true →
      0 ≤ s.tokens →
      (countIn a b (runCalls m r s calls) : ℚ) ≤ windowBound m r a b s := by
  intro calls
  induction calls with
  | nil =>
    intro s _ htok
    simp only [runCalls, countIn_nil, Nat.cast_zero]
    exact windowBound_nonneg m r a b s hm hr hab htok
  | cons t ts ih =>
    intro s hok htok
    simp only [callsOk, Bool.and_eq_true, decide_eq_true_eq] at hok
    obtain ⟨hts, hok2⟩ := hok
    simp only [runCalls]
    obtain ⟨hL1, hL2, hL3, hL5, hL4⟩ := acquireAt_spec m r t s hm hr
    set c := (acquireAt m r t s).1 with hc
    set s2 := (acquireAt m r t s).2 with hs2
    have hsc : s.lastRefill ≤ c := le_trans hts hL2
    have hk : (0:ℚ) ≤ r / 1000 := by positivity
    have hih := ih s2 hok2 hL5
    rw [countIn_cons, Nat.cast_add]
    unfold windowBound at hih ⊢
    rw [hL1] at hih
    by_cases hwin : a ≤ c ∧ c ≤ b
    · rw [if_pos hwin, Nat.cast_one]
      rw [if_neg (by linarith [hwin.2] : ¬ b < c),
        if_neg (by linarith [hwin.1] : ¬ c < a)] at hih
      by_cases hbs : b < s.lastRefill
      · exact absurd (lt_of_lt_of_le hbs hsc) (not_lt.mpr hwin.2)
      · rw [if_neg hbs]
        by_cases hsa : s.lastRefill < a
        · rw [if_pos hsa]
          have hprod : (0:ℚ) ≤ (c - a) * (r / 1000) :=
            mul_nonneg (sub_nonneg.mpr hwin.1) hk
          have hL4x : s2.tokens ≤
              s.tokens + (c - s.lastRefill) / 1000 * r - 1 := hL4
          nlinarith [hL3, hih, hprod]
        · rw [if_neg hsa]
          nlinarith [hL4, hih]
    · rw [if_neg hwin, Nat.cast_zero]
      push_neg at hwin
      by_cases hca : c < a
      · -- the completion precedes the window
        rw [if_neg (by linarith : ¬ b < c), if_pos hca] at hih
        by_cases hbs : b < s.lastRefill
        · exact absurd (lt_of_lt_of_le hbs hsc) (by linarith)
        · rw [if_neg hbs]
          by_cases hsa : s.lastRefill < a
          · rw [if_pos hsa]
            linarith
          · push_neg at hsa
            exact absurd (lt_of_le_of_lt hsa (lt_of_le_of_lt hsc hca))
              (lt_irrefl a)
      · -- the completion is past the window end
        push_neg at hca
        have hcb : b < c := hwin hca
        rw [if_pos hcb] at hih
        have hW : (0:ℚ) ≤ windowBound m r a b s :=
          windowBound_nonneg m r a b s hm hr hab htok
        unfold windowBound at hW
        linarith

/-- Claim C8 as amended: the matcher's limiter is the token bucket
`RateLimiter` (capacity `max_api_calls_per_minute`, refill
`capacity/60` per second, awaiting `acquire()` before the keyword
phase and again before the semantic phase), and across any 60-second
window at most `2 × max_api_calls_per_minute` acquisitions complete
— the initial full-capacity burst plus the window's refill — not
`max + 1` as claimed. -/
theorem rateLimiter_window_bound (m t0 a : ℚ) (calls : List ℚ)
    (hm : 1 ≤ m)
    (hok : callsOk m (m / 60) (initRL m t0) calls = true) :
    (countIn a (a + 60000) (runCalls m (m / 60) (initRL m t0) calls) : ℚ) ≤
      2 * m := by
  have hr : 0 < m / 60 := by linarith
  have h := runCalls_window_bound m (m / 60) a (a + 60000) hm hr
    (by linarith) calls (initRL m t0) hok (by simp [initRL]; linarith)
  refine le_trans h ?_
  unfold windowBound initRL
  split_ifs with h1 h2
  · nlinarith
  · have : (a + 60000 - a) / 1000 * (m / 60) = m := by ring
    linarith
  · push_neg at h1 h2
    have hfact : (a + 60000 - t0) / 1000 * (m / 60) ≤ m := by
      have h60 : t0 ≤ a + 60000 := h1
      have h0 : a ≤ t0 := h2
      nlinarith
    simp only []
    linarith

/-! Concrete limiter run: capacity 2, calls at 0 s, 0 s, 30 s, 60 s.
The first two drain the initial burst; each later call finds exactly
one refilled token, so all four complete inside `[0 ms, 60000 ms]`. -/

theorem rl_step1 : acquireAt 2 (2 / 60) 0 (initRL 2 0) =
    (0, { tokens := 1, lastRefill := 0 }) := by
  norm_num [acquireAt, refill, jsMin, initRL]

theorem rl_step2 : acquireAt 2 (2 / 60) 0
    ({ tokens := 1, lastRefill := 0 } : RLState) =
    (0, { tokens := 0, lastRefill := 0 }) := by
  norm_num [acquireAt, refill, jsMin]

theorem rl_step3 : acquireAt 2 (2 / 60) 30000
    ({ tokens := 0, lastRefill := 0 } : RLState) =
    (30000, { tokens := 0, lastRefill := 30000 }) := by
  norm_num [acquireAt, refill, jsMin]

theorem rl_step4 : acquireAt 2 (2 / 60) 60000
    ({ tokens := 0, lastRefill := 30000 } : RLState) =
    (60000, { tokens := 0, lastRefill := 60000 }) := by
  norm_num [acquireAt, refill, jsMin]

theorem rl_calls_ok :
    callsOk 2 (2 / 60) (initRL 2 0) [0, 0, 30000, 60000] = true := by
  simp only [callsOk, rl_step1, rl_step2, rl_step3, rl_step4]
  norm_num [initRL]

theorem rl_run :
    runCalls 2 (2 / 60) (initRL 2 0) [0, 0, 30000, 60000] =
      [0, 0, 30000, 60000] := by
  simp only [runCalls, rl_step1, rl_step2, rl_step3, rl_step4]

/-- Counterexample to claim C8: with `max_api_calls_per_minute = 2`,
a valid sequence of `acquire()` calls completes 4 times inside the
60-second window `[0, 60000]` ms, exceeding the claimed bound
`max + 1 = 3`.  The initial full bucket allows a burst of `max`
calls on top of the window's refill of `max` tokens. -/
theorem rateLimiter_window_counterexample :
    callsOk 2 (2 / 60) (initRL 2 0) [0, 0, 30000, 60000] = true ∧
    countIn 0 (0 + 60000)
      (runCalls 2 (2 / 60) (initRL 2 0) [0, 0, 30000, 60000]) = 4 ∧
    ¬(4 ≤ 2 + 1) := by
  refine ⟨rl_calls_ok, ?_, by norm_num⟩
  rw [rl_run]
  simp only [countIn_cons, countIn_nil]
  norm_num

/-- Witness for the amended C8 at the concrete capacity-2 run: the
four completions in the window meet the proved bound `2 × max = 4`
exactly. -/
theorem rateLimiter_window_bound_witness :
    ((1:ℚ) ≤ 2 ∧
      callsOk 2 (2 / 60) (initRL 2 0) [0, 0, 30000, 60000] = true) ∧
    (countIn 0 (0 + 60000)
      (runCalls 2 (2 / 60) (initRL 2 0) [0, 0, 30000, 60000]) : ℚ) ≤
      2 * 2 :=
  ⟨⟨by norm_num, rl_calls_ok⟩,
    rateLimiter_window_bound 2 0 0 [0, 0, 30000, 60000] (by norm_num)
      rl_calls_ok⟩

end ClaudeDemon
